import Mathlib

/-!
Verification of the jedi compiled-analysis subprocess layer
(jedi/inference/compiled/subprocess/__init__.py): the host-side
CompiledSubprocess manager, the worker-side Listener loop, the
AccessHandle proxy, and the handle-rewriting performed by
InferenceStateSubprocess._convert_access_handles.

The Python code is shallowly embedded: stateful objects become explicit
state records, channel I/O becomes outcome parameters plus an event
trace, and exceptions become explicit result constructors.
-/

namespace Jedi

/-- Model of a Python exception object: its type name, an object-identity
tag (so re-raising "the same object" is observable), and its args tuple
(as strings, modelling the message arguments). -/
structure PyExc where
  ty : String
  tag : Nat
  args : List String
deriving DecidableEq, Repr

/-- Model of AccessHandle's data attributes: the numeric id, an
object-identity tag (Python object identity, so "same instance" is
observable), the _subprocess field (identified by a numeric token,
or none when not set), and whether the access attribute is set. -/
structure AccessHandle where
  id : Nat
  tag : Nat
  subprocess : Option Nat
  hasAccess : Bool
deriving DecidableEq, Repr

/-- Values carried across the channel: primitives, AccessHandle tokens,
and the structural containers _convert_access_handles recurses into
(tuple, list, SignatureParam, AccessPath). -/
inductive Value where
  | vnone : Value
  | int : Int → Value
  | str : String → Value
  | handle : AccessHandle → Value
  | tup : List Value → Value
  | lst : List Value → Value
  | sigParam : List Value → Value
  | accessPath : List Value → Value
deriving Repr

/-- Association-list lookup modelling Python dict lookup
(first binding wins; insertion conses, so it shadows older bindings). -/
def dictLookup {α : Type} (m : List (Nat × α)) (i : Nat) : Option α :=
  match m with
  | [] => none
  | p :: rest => if p.1 = i then some p.2 else dictLookup rest i

/-- Python dict deletion: the key is gone afterwards. -/
def dictDelete {α : Type} (m : List (Nat × α)) (i : Nat) : List (Nat × α) :=
  m.filter (fun p => p.1 ≠ i)

/-- The host-side handle registry _InferenceStateProcess._handles. -/
abbrev HandleMap := List (Nat × AccessHandle)

/-- set_access_handle: self._handles[handle.id] = handle. -/
def setAccessHandle (m : HandleMap) (h : AccessHandle) : HandleMap :=
  (h.id, h) :: m

mutual

/-- InferenceStateSubprocess._convert_access_handles: recursively walks a
result value; SignatureParam / tuple / list / AccessPath are rebuilt from
converted children; an AccessHandle is replaced by the registered handle
for its id when one exists, otherwise the incoming handle gets its
_subprocess field set (add_subprocess) and is registered.  The host
registry is threaded as state; selfId identifies the host subprocess
passed to add_subprocess. -/
def convertAccessHandles (selfId : Nat) (m : HandleMap) : Value → Value × HandleMap
  | Value.sigParam vs =>
      let r := convertHandleList selfId m vs
      (Value.sigParam r.1, r.2)
  | Value.tup vs =>
      let r := convertHandleList selfId m vs
      (Value.tup r.1, r.2)
  | Value.lst vs =>
      let r := convertHandleList selfId m vs
      (Value.lst r.1, r.2)
  | Value.handle h =>
      match dictLookup m h.id with
      | some h0 => (Value.handle h0, m)
      | none =>
          let h2 : AccessHandle := { h with subprocess := some selfId }
          (Value.handle h2, setAccessHandle m h2)
  | Value.accessPath vs =>
      let r := convertHandleList selfId m vs
      (Value.accessPath r.1, r.2)
  | Value.vnone => (Value.vnone, m)
  | Value.int n => (Value.int n, m)
  | Value.str s => (Value.str s, m)

/-- Sequential conversion of a container's elements, threading the
registry left to right (the Python generator mutates self._handles as it
is consumed in order). -/
def convertHandleList (selfId : Nat) (m : HandleMap) : List Value → List Value × HandleMap
  | [] => ([], m)
  | v :: vs =>
      let r1 := convertAccessHandles selfId m v
      let r2 := convertHandleList selfId r1.2 vs
      (r1.1 :: r2.1, r2.2)

end

mutual

/-- The skeleton of a value: its constructor structure and element order,
with each handle reduced to its id.  Used to state that conversion and
pickling preserve structural type, order, and handle ids. -/
def shape : Value → Value
  | Value.vnone => Value.vnone
  | Value.int n => Value.int n
  | Value.str s => Value.str s
  | Value.handle h =>
      Value.handle { id := h.id, tag := 0, subprocess := none, hasAccess := false }
  | Value.tup vs => Value.tup (shapeList vs)
  | Value.lst vs => Value.lst (shapeList vs)
  | Value.sigParam vs => Value.sigParam (shapeList vs)
  | Value.accessPath vs => Value.accessPath (shapeList vs)

/-- Skeletons of a list of values, elementwise. -/
def shapeList : List Value → List Value
  | [] => []
  | v :: vs => shape v :: shapeList vs

end

/-- The handle registry is wellformed: every registered handle is stored
under its own id (set_access_handle keys the dict by handle.id). -/
def WfMap (m : HandleMap) : Prop :=
  ∀ i h, dictLookup m i = some h → h.id = i

/-- Occurrence of a handle instance inside a value (at any depth of the
container structure _convert_access_handles recurses into). -/
inductive HandleIn (h : AccessHandle) : Value → Prop where
  | here : HandleIn h (Value.handle h)
  | tup {v : Value} {vs : List Value} : v ∈ vs → HandleIn h v → HandleIn h (Value.tup vs)
  | lst {v : Value} {vs : List Value} : v ∈ vs → HandleIn h v → HandleIn h (Value.lst vs)
  | sigParam {v : Value} {vs : List Value} :
      v ∈ vs → HandleIn h v → HandleIn h (Value.sigParam vs)
  | accessPath {v : Value} {vs : List Value} :
      v ∈ vs → HandleIn h v → HandleIn h (Value.accessPath vs)

/-- Worker-side functions are referenced by name on the wire
(the pickled function object; only its identity matters here). -/
abbrev FuncId := String

/-- One request written to the worker's stdin:
(infer_state_id, function, args, kwargs). -/
structure WireRequest where
  inferStateId : Option Nat
  function : Option FuncId
  args : List Value
  kwargs : List (String × Value)
deriving Repr

/-- Outcome of pickle_dump on the worker's stdin: success, a broken-pipe
style error (errno EPIPE or EINVAL), or some other IO error. -/
inductive WriteOutcome where
  | ok : WriteOutcome
  | brokenPipe : WriteOutcome
  | otherErr : WriteOutcome
deriving DecidableEq, Repr

/-- Outcome of pickle_load on the worker's stdout: a decoded response
tuple (is_exception, traceback, result) or end-of-stream (EOFError). -/
inductive ReadOutcome where
  | success : Value → ReadOutcome
  | failure : String → PyExc → ReadOutcome
  | eof : ReadOutcome
deriving Repr

/-- Observable channel activity of the manager: spawning the worker
process (memoized _get_process) and successfully writing a request. -/
inductive ChannelEvent where
  | spawn : ChannelEvent
  | write : WireRequest → ChannelEvent
deriving Repr

/-- What _send does from the caller's point of view: return a result,
raise InternalError with a message, re-raise the worker-reported
exception, or propagate a non-broken-pipe IO error. -/
inductive SendResult where
  | ok : Value → SendResult
  | internalError : String → SendResult
  | reraised : PyExc → SendResult
  | ioError : SendResult
deriving Repr

/-- CompiledSubprocess state: the executable path, the is_crashed flag,
the pending infer-state deletion queue (collections.deque, appended and
popped at the same end, hence LIFO — modelled as a cons stack), and
whether the memoized _get_process has already spawned the worker. -/
structure Manager where
  executable : String
  isCrashed : Bool
  deletionQueue : List Nat
  processStarted : Bool
deriving Repr

/-- CompiledSubprocess._send: raise InternalError immediately when
is_crashed; otherwise spawn the process if needed (memoized), write the
request (a broken-pipe error kills the manager and raises InternalError,
any other IO error propagates), then read one response (EOF kills the
manager and raises InternalError; a failure response re-raises the
worker's exception object with its args replaced by the traceback text;
a success response returns the result).  The write and read outcomes are
the channel environment's behaviour, passed as parameters. -/
def Manager.send (m : Manager) (req : WireRequest)
    (w : WriteOutcome) (r : ReadOutcome) :
    Manager × SendResult × List ChannelEvent :=
  if m.isCrashed then
    (m, SendResult.internalError
          ("The subprocess " ++ m.executable ++ " has crashed."), [])
  else
    let spawnEvts : List ChannelEvent :=
      if m.processStarted then [] else [ChannelEvent.spawn]
    let m1 := { m with processStarted := true }
    match w with
    | WriteOutcome.otherErr => (m1, SendResult.ioError, spawnEvts)
    | WriteOutcome.brokenPipe =>
        ({ m1 with isCrashed := true },
         SendResult.internalError
           ("The subprocess " ++ m.executable ++
             " was killed. Maybe out of memory?"),
         spawnEvts)
    | WriteOutcome.ok =>
        let evts := spawnEvts ++ [ChannelEvent.write req]
        match r with
        | ReadOutcome.eof =>
            ({ m1 with isCrashed := true },
             SendResult.internalError
               ("The subprocess " ++ m.executable ++ " has crashed."),
             evts)
        | ReadOutcome.failure tb e =>
            (m1, SendResult.reraised { e with args := [tb] }, evts)
        | ReadOutcome.success v => (m1, SendResult.ok v, evts)

/-- CompiledSubprocess.delete_infer_state: only append the id to the
deletion queue; nothing is written to the channel now. -/
def Manager.deleteInferState (m : Manager) (inferStateId : Nat) :
    Manager × List ChannelEvent :=
  ({ m with deletionQueue := inferStateId :: m.deletionQueue }, [])

/-- The deletion-drain loop at the top of CompiledSubprocess.run: pop
queued ids one at a time and _send (id, None) for each; a raising _send
aborts the loop (the exception propagates out of run, the popped id is
lost, the rest of the queue stays).  The oracle gives the channel
outcome of the k-th send of this run call. -/
def Manager.runDrain (oracle : Nat → WriteOutcome × ReadOutcome) :
    List Nat → Nat → Manager → Manager × Option SendResult × List ChannelEvent
  | [], _, m => (m, none, [])
  | i :: rest, k, m =>
      let o := oracle k
      let s := Manager.send { m with deletionQueue := rest }
        { inferStateId := some i, function := none, args := [], kwargs := [] }
        o.1 o.2
      match s.2.1 with
      | SendResult.ok _ =>
          let t := Manager.runDrain oracle rest (k + 1) s.1
          (t.1, t.2.1, s.2.2 ++ t.2.2)
      | e => (s.1, some e, s.2.2)

/-- CompiledSubprocess.run: first drain the deletion queue, then _send
the real request (id(infer_state), function, args, kwargs).  An
exception raised while draining propagates and the real request is not
sent. -/
def Manager.run (m : Manager) (inferStateId : Nat) (f : FuncId)
    (args : List Value) (kwargs : List (String × Value))
    (oracle : Nat → WriteOutcome × ReadOutcome) :
    Manager × SendResult × List ChannelEvent :=
  let d := Manager.runDrain oracle m.deletionQueue 0
    { m with deletionQueue := [] }
  match d.2.1 with
  | some e => (d.1, e, d.2.2)
  | none =>
      let o := oracle m.deletionQueue.length
      let s := d.1.send
        { inferStateId := some inferStateId, function := some f,
          args := args, kwargs := kwargs } o.1 o.2
      (s.1, s.2.1, d.2.2 ++ s.2.2)

/-- A worker-side InferenceState session: its object identity (a fresh
tag per created session) and the handle registry of its
compiled_subprocess (an _InferenceStateProcess). -/
structure Session where
  tag : Nat
  handles : List (Nat × AccessHandle)
deriving DecidableEq, Repr

/-- Listener state: the _infer_states dict keyed by infer_state_id, plus
the supply of fresh session identities. -/
structure ListenerState where
  inferStates : List (Nat × Session)
  nextTag : Nat
deriving DecidableEq, Repr

/-- A freshly started worker's listener: empty session dict. -/
def freshListener : ListenerState :=
  { inferStates := [], nextTag := 0 }

/-- A Python KeyError raised for a missing numeric key. -/
def keyError (n : Nat) : PyExc :=
  { ty := "KeyError", tag := n, args := [toString n] }

/-- The TypeError Python raises when _run calls a None function for a
request with no infer_state_id and no function. -/
def typeErrorNone : PyExc :=
  { ty := "TypeError", tag := 0, args := ["NoneType object is not callable"] }

/-- Result of executing worker-side Python code: a value or a raised
exception. -/
inductive PyResult where
  | ok : Value → PyResult
  | exc : PyExc → PyResult
deriving Repr

/-- A record of how the requested function got invoked inside _run:
either as a free function (no session), or with the session object
(identified by its tag) prepended to the exchanged arguments. -/
inductive Invocation where
  | free : FuncId → List Value → List (String × Value) → Invocation
  | withState : FuncId → Nat → List Value → List (String × Value) → Invocation
deriving Repr

/-- Listener._get_infer_state: return the session for the id from the
_infer_states dict, or lazily create one (fresh InferenceState, empty
handle registry), store it under the id, and return it.  The function
argument is accepted and ignored, as in the source. -/
def ListenerState.getInferState (L : ListenerState) (_function : FuncId)
    (inferStateId : Nat) : Session × ListenerState :=
  match dictLookup L.inferStates inferStateId with
  | some s => (s, L)
  | none =>
      let s : Session := { tag := L.nextTag, handles := [] }
      (s, { inferStates := (inferStateId, s) :: L.inferStates,
            nextTag := L.nextTag + 1 })

/-- Argument exchange in Listener._run: an AccessHandle argument is
replaced by infer_state.compiled_subprocess.get_access_handle(arg.id),
which raises KeyError when the id is not registered; any other argument
is left untouched. -/
def exchangeArg (s : Session) (v : Value) : Except PyExc Value :=
  match v with
  | Value.handle h =>
      match dictLookup s.handles h.id with
      | some h2 => Except.ok (Value.handle h2)
      | none => Except.error (keyError h.id)
  | v => Except.ok v

/-- Exchange of the positional argument list, left to right; the first
KeyError propagates. -/
def exchangeArgs (s : Session) : List Value → Except PyExc (List Value)
  | [] => Except.ok []
  | v :: vs =>
      match exchangeArg s v with
      | Except.error e => Except.error e
      | Except.ok v2 =>
          match exchangeArgs s vs with
          | Except.error e => Except.error e
          | Except.ok vs2 => Except.ok (v2 :: vs2)

/-- Exchange of the keyword arguments, values only. -/
def exchangeKwargs (s : Session) :
    List (String × Value) → Except PyExc (List (String × Value))
  | [] => Except.ok []
  | kv :: kvs =>
      match exchangeArg s kv.2 with
      | Except.error e => Except.error e
      | Except.ok v2 =>
          match exchangeKwargs s kvs with
          | Except.error e => Except.error e
          | Except.ok kvs2 => Except.ok ((kv.1, v2) :: kvs2)

/-- Listener._run: a request with no infer_state_id calls the function
directly (calling a None function raises TypeError); a request with an
id but no function deletes the session from _infer_states (KeyError when
absent); otherwise the session is got-or-created, AccessHandle arguments
are exchanged through that session's registry, and the function is
invoked with the session prepended.  Worker-side execution of the
invoked function is the exec parameter; the invocation list records what
got invoked. -/
def ListenerState.runRequest (exec : Invocation → PyResult)
    (L : ListenerState) (req : WireRequest) :
    ListenerState × PyResult × List Invocation :=
  match req.inferStateId with
  | none =>
      match req.function with
      | none => (L, PyResult.exc typeErrorNone, [])
      | some f =>
          let inv := Invocation.free f req.args req.kwargs
          (L, exec inv, [inv])
  | some i =>
      match req.function with
      | none =>
          match dictLookup L.inferStates i with
          | none => (L, PyResult.exc (keyError i), [])
          | some _ =>
              ({ L with inferStates := dictDelete L.inferStates i },
               PyResult.ok Value.vnone, [])
      | some f =>
          let g := L.getInferState f i
          match exchangeArgs g.1 req.args with
          | Except.error e => (g.2, PyResult.exc e, [])
          | Except.ok args2 =>
              match exchangeKwargs g.1 req.kwargs with
              | Except.error e => (g.2, PyResult.exc e, [])
              | Except.ok kwargs2 =>
                  let inv := Invocation.withState f g.1.tag args2 kwargs2
                  (g.2, exec inv, [inv])

/-- traceback.format_exc() for a caught exception, modelled as a
deterministic rendering of the exception. -/
def formatExc (e : PyExc) : String :=
  "Traceback (most recent call last): " ++ e.ty ++ ": " ++
    String.intercalate ", " e.args

/-- The response tuple the listener writes back: (False, None, result) on
success, (True, traceback.format_exc(), e) when handling raised e. -/
inductive Response where
  | success : Value → Response
  | failure : String → PyExc → Response
deriving Repr

/-- How Listener.listen packages one handling outcome as a response. -/
def responseOf : PyResult → Response
  | PyResult.ok v => Response.success v
  | PyResult.exc e => Response.failure (formatExc e) e

/-- How the listener loop ends: exit(0) on EOFError from pickle_load, or
abnormally when pickle_dump of a response raises. -/
inductive ExitStatus where
  | cleanExit : ExitStatus
  | abnormal : ExitStatus
deriving DecidableEq, Repr

/-- Listener.listen: read requests until EOF (then exit(0)); each request
is handled by _run with any exception caught and packaged as a failure
response; the response is then written (a failed write raises out of the
loop).  The finite input stream is a list of requests paired with
whether writing that request's response succeeds. -/
def ListenerState.listen (exec : Invocation → PyResult)
    (L : ListenerState) :
    List (WireRequest × Bool) → List Response × ExitStatus × ListenerState
  | [] => ([], ExitStatus.cleanExit, L)
  | (req, writeOk) :: rest =>
      let s := L.runRequest exec req
      let resp := responseOf s.2.1
      if writeOk then
        let t := ListenerState.listen exec s.1 rest
        (resp :: t.1, t.2.1, t.2.2)
      else
        ([], ExitStatus.abnormal, s.1)

/-- Sequential handling of a list of requests by the listener, keeping
the invocation log (used to observe which session each call ran on). -/
def ListenerState.runAll (exec : Invocation → PyResult)
    (L : ListenerState) :
    List WireRequest → ListenerState × List Invocation
  | [] => (L, [])
  | r :: rs =>
      let s := L.runRequest exec r
      let t := ListenerState.runAll exec s.1 rs
      (t.1, s.2.2 ++ t.2)

/-- A positional argument as seen by AccessHandle._workaround: either a
slice object (start, stop) or any other hashable value, opaque here. -/
inductive PyArg where
  | slice : Int → Int → PyArg
  | other : Int → PyArg
deriving DecidableEq, Repr

/-- The memoization key of a proxy call: (operation name, args, kwargs). -/
structure ProxyCall where
  name : String
  args : List PyArg
  kwargs : List (String × PyArg)
deriving DecidableEq, Repr

/-- The per-handle memo dictionary of _cached_results. -/
abbrev MemoCache := List (ProxyCall × Value)

/-- Dictionary lookup in the memo cache. -/
def memoLookup (c : MemoCache) (k : ProxyCall) : Option Value :=
  match c with
  | [] => none
  | p :: rest => if p.1 = k then some p.2 else memoLookup rest k

/-- Modelled from the spec: memoize_method (imported from jedi.cache,
which is not among the sources) memoizes AccessHandle._cached_results on
the key (operation name, args, kwargs); on a hit the cached value is
returned with no subprocess round trip, on a miss
get_compiled_method_return is called once and the result stored.  The
last component counts dispatcher round trips. -/
def cachedResults (dispatch : ProxyCall → Value) (c : MemoCache)
    (k : ProxyCall) : Value × MemoCache × Nat :=
  match memoLookup c k with
  | some v => (v, c, 0)
  | none =>
      let v := dispatch k
      (v, (k, v) :: c, 1)

/-- Which path AccessHandle._workaround takes: the raw
get_compiled_method_return call, or the memoized _cached_results. -/
inductive Route where
  | rawMethod : Route
  | cached : Route
deriving DecidableEq, Repr

/-- The routing condition of AccessHandle._workaround: args is non-empty
and its first element is a slice. -/
def workaroundRoute (args : List PyArg) : Route :=
  match args with
  | PyArg.slice _ _ :: _ => Route.rawMethod
  | _ => Route.cached

/-- AccessHandle._workaround: a slice first argument goes straight to
get_compiled_method_return (one round trip, cache untouched); everything
else goes through the memoized _cached_results. -/
def workaround (dispatch : ProxyCall → Value) (c : MemoCache)
    (name : String) (args : List PyArg) (kwargs : List (String × PyArg)) :
    Value × MemoCache × Nat :=
  match workaroundRoute args with
  | Route.rawMethod =>
      (dispatch { name := name, args := args, kwargs := kwargs }, c, 1)
  | Route.cached =>
      cachedResults dispatch c { name := name, args := args, kwargs := kwargs }

/-- AccessHandle.__getstate__: the pickled state is exactly the id. -/
def AccessHandle.getstate (h : AccessHandle) : Nat := h.id

/-- AccessHandle.__setstate__: restore only the id onto a fresh object;
access and _subprocess are absent until re-resolved locally.  freshTag
is the new object's identity. -/
def AccessHandle.setstate (st : Nat) (freshTag : Nat) : AccessHandle :=
  { id := st, tag := freshTag, subprocess := none, hasAccess := false }

/-- The wire form of a value: structure plus primitives, with every
AccessHandle reduced to its __getstate__, i.e. its id. -/
inductive Pickled where
  | pnone : Pickled
  | pint : Int → Pickled
  | pstr : String → Pickled
  | phandle : Nat → Pickled
  | ptup : List Pickled → Pickled
  | plst : List Pickled → Pickled
  | psigParam : List Pickled → Pickled
  | paccessPath : List Pickled → Pickled
deriving Repr

mutual

/-- Pickling a value: containers are preserved structurally, a handle
contributes only its __getstate__. -/
def encodeValue : Value → Pickled
  | Value.vnone => Pickled.pnone
  | Value.int n => Pickled.pint n
  | Value.str s => Pickled.pstr s
  | Value.handle h => Pickled.phandle h.getstate
  | Value.tup vs => Pickled.ptup (encodeList vs)
  | Value.lst vs => Pickled.plst (encodeList vs)
  | Value.sigParam vs => Pickled.psigParam (encodeList vs)
  | Value.accessPath vs => Pickled.paccessPath (encodeList vs)

/-- Pickling of container elements, in order. -/
def encodeList : List Value → List Pickled
  | [] => []
  | v :: vs => encodeValue v :: encodeList vs

end

mutual

/-- Unpickling: containers are rebuilt structurally; each handle is a
fresh object (new identity drawn from the tag supply) restored via
__setstate__, so only its id survives. -/
def decodeValue : Pickled → Nat → Value × Nat
  | Pickled.pnone, t => (Value.vnone, t)
  | Pickled.pint n, t => (Value.int n, t)
  | Pickled.pstr s, t => (Value.str s, t)
  | Pickled.phandle i, t => (Value.handle (AccessHandle.setstate i t), t + 1)
  | Pickled.ptup ps, t =>
      let r := decodeList ps t
      (Value.tup r.1, r.2)
  | Pickled.plst ps, t =>
      let r := decodeList ps t
      (Value.lst r.1, r.2)
  | Pickled.psigParam ps, t =>
      let r := decodeList ps t
      (Value.sigParam r.1, r.2)
  | Pickled.paccessPath ps, t =>
      let r := decodeList ps t
      (Value.accessPath r.1, r.2)

/-- Unpickling of container elements, threading the identity supply. -/
def decodeList : List Pickled → Nat → List Value × Nat
  | [], t => ([], t)
  | p :: ps, t =>
      let r1 := decodeValue p t
      let r2 := decodeList ps r1.2
      (r1.1 :: r2.1, r2.2)

end

/-- The conjunction of properties claimed for _convert_access_handles:
shape preservation, canonicity of every handle in the output, reuse of
previously registered instances, registration of the incoming handle on
first sight of an id, and identical instances exactly for identical ids
across two successive converted results. -/
def ConvertClaim (selfId : Nat) (m : HandleMap) (v v2 : Value) : Prop :=
  shape (convertAccessHandles selfId m v).1 = shape v ∧
  (∀ h, HandleIn h (convertAccessHandles selfId m v).1 →
     dictLookup (convertAccessHandles selfId m v).2 h.id = some h) ∧
  (∀ i h0, dictLookup m i = some h0 →
     ∀ h, HandleIn h (convertAccessHandles selfId m v).1 → h.id = i → h = h0) ∧
  (∀ h, dictLookup m h.id = none →
     convertAccessHandles selfId m (Value.handle h) =
       (Value.handle { h with subprocess := some selfId },
        setAccessHandle m { h with subprocess := some selfId })) ∧
  (∀ h h', HandleIn h (convertAccessHandles selfId m v).1 →
     HandleIn h' (convertAccessHandles selfId
       (convertAccessHandles selfId m v).2 v2).1 →
     (h.id = h'.id ↔ h = h'))

/-- The failure-semantics properties claimed for the manager: a broken
pipe on write or EOF on read crashes it permanently with InternalError;
once crashed, _send raises InternalError immediately with no channel
activity (so the worker is never respawned); run behaves the same; and
delete_infer_state never touches the channel or the crash flag. -/
def CrashClaim (m : Manager) (req : WireRequest) (r : ReadOutcome) : Prop :=
  (m.isCrashed = false →
     (m.send req WriteOutcome.brokenPipe r).1.isCrashed = true ∧
     (m.send req WriteOutcome.brokenPipe r).2.1 =
       SendResult.internalError
         ("The subprocess " ++ m.executable ++
           " was killed. Maybe out of memory?")) ∧
  (m.isCrashed = false →
     (m.send req WriteOutcome.ok ReadOutcome.eof).1.isCrashed = true ∧
     (m.send req WriteOutcome.ok ReadOutcome.eof).2.1 =
       SendResult.internalError
         ("The subprocess " ++ m.executable ++ " has crashed.")) ∧
  (∀ w r2, m.isCrashed = true →
     m.send req w r2 =
       (m, SendResult.internalError
             ("The subprocess " ++ m.executable ++ " has crashed."), [])) ∧
  (∀ w r2, m.isCrashed = true → (m.send req w r2).1.isCrashed = true) ∧
  (∀ i f args kwargs oracle, m.isCrashed = true →
     (m.run i f args kwargs oracle).1.isCrashed = true ∧
     (m.run i f args kwargs oracle).2.1 =
       SendResult.internalError
         ("The subprocess " ++ m.executable ++ " has crashed.") ∧
     (m.run i f args kwargs oracle).2.2 = []) ∧
  (∀ i, (m.deleteInferState i).1.isCrashed = m.isCrashed ∧
     (m.deleteInferState i).2 = [])

/-- The remote-execution-failure properties claimed: the worker catches
a handler exception and replies (True, format_exc, the exception object
itself); the host re-raises that same object (same type and identity)
with its args replaced by the traceback text; the manager is not
crashed by this, and a subsequent call still goes through the channel. -/
def RemoteExcClaim (m : Manager) (req req2 : WireRequest) (tb : String)
    (e : PyExc) (v : Value) : Prop :=
  (∀ exec L r, (ListenerState.runRequest exec L r).2.1 = PyResult.exc e →
     responseOf (ListenerState.runRequest exec L r).2.1 =
       Response.failure (formatExc e) e) ∧
  (m.isCrashed = false →
     (m.send req WriteOutcome.ok (ReadOutcome.failure tb e)).2.1 =
       SendResult.reraised { ty := e.ty, tag := e.tag, args := [tb] } ∧
     (m.send req WriteOutcome.ok (ReadOutcome.failure tb e)).1.isCrashed = false ∧
     ((m.send req WriteOutcome.ok (ReadOutcome.failure tb e)).1.send req2
        WriteOutcome.ok (ReadOutcome.success v)).2.1 = SendResult.ok v)

/-- The deletion request sent for a queued infer_state id. -/
def deletionRequest (i : Nat) : WireRequest :=
  { inferStateId := some i, function := none, args := [], kwargs := [] }

/-- A channel environment in which every write succeeds and every read
returns the success response v. -/
def okOracle (v : Value) : Nat → WriteOutcome × ReadOutcome :=
  fun _ => (WriteOutcome.ok, ReadOutcome.success v)

/-- The deferred-deletion properties claimed: delete_infer_state only
enqueues and writes nothing; on the next run over a healthy channel one
deletion request per queued id is written before the real request, and
the queue is empty afterwards. -/
def DeferredDeletionClaim (m : Manager) (i realId : Nat) (f : FuncId)
    (args : List Value) (kwargs : List (String × Value)) (v : Value) : Prop :=
  (m.deleteInferState i =
     ({ m with deletionQueue := i :: m.deletionQueue }, [])) ∧
  (m.isCrashed = false → m.processStarted = true →
     (m.run realId f args kwargs (okOracle v)).2.2 =
       m.deletionQueue.map (fun j => ChannelEvent.write (deletionRequest j)) ++
         [ChannelEvent.write
           { inferStateId := some realId, function := some f,
             args := args, kwargs := kwargs }] ∧
     (m.run realId f args kwargs (okOracle v)).1.deletionQueue = [])

/-- The at-most-one-session properties claimed: running any nonempty
sequence of requests that all name context id cid with a non-none
function against a fresh worker creates exactly one session (the fresh
tag supply advances once), stores it under cid, and every invocation
operates on that same session object (tag 0). -/
def SessionUniqueClaim (exec : Invocation → PyResult) (cid : Nat)
    (reqs : List WireRequest) : Prop :=
  (ListenerState.runAll exec freshListener reqs).1.nextTag = 1 ∧
  dictLookup (ListenerState.runAll exec freshListener reqs).1.inferStates cid =
    some { tag := 0, handles := [] } ∧
  (∀ inv ∈ (ListenerState.runAll exec freshListener reqs).2,
     ∃ f args2 kwargs2, inv = Invocation.withState f 0 args2 kwargs2)

/-- The dispatch properties claimed for Listener._run: a none context id
invokes the function directly with no session; a none function deletes
the session and invokes nothing; otherwise the session is
got-or-created, AccessHandle arguments are replaced via that session's
registry (exactly the handle arguments, elementwise, keyword values
included), and the function is invoked with the session prepended. -/
def RunRequestClaim (exec : Invocation → PyResult) (L : ListenerState)
    (i : Nat) (f : FuncId) (args : List Value)
    (kwargs : List (String × Value)) : Prop :=
  (ListenerState.runRequest exec L
     { inferStateId := none, function := some f,
       args := args, kwargs := kwargs } =
     (L, exec (Invocation.free f args kwargs),
      [Invocation.free f args kwargs])) ∧
  (∀ s, dictLookup L.inferStates i = some s →
     ListenerState.runRequest exec L
       { inferStateId := some i, function := none,
         args := args, kwargs := kwargs } =
       ({ L with inferStates := dictDelete L.inferStates i },
        PyResult.ok Value.vnone, [])) ∧
  (∀ args2 kwargs2,
     exchangeArgs (L.getInferState f i).1 args = Except.ok args2 →
     exchangeKwargs (L.getInferState f i).1 kwargs = Except.ok kwargs2 →
     ListenerState.runRequest exec L
       { inferStateId := some i, function := some f,
         args := args, kwargs := kwargs } =
       ((L.getInferState f i).2,
        exec (Invocation.withState f (L.getInferState f i).1.tag args2 kwargs2),
        [Invocation.withState f (L.getInferState f i).1.tag args2 kwargs2])) ∧
  (∀ s h h2, dictLookup s.handles h.id = some h2 →
     exchangeArg s (Value.handle h) = Except.ok (Value.handle h2)) ∧
  (∀ s v, (∀ h, v ≠ Value.handle h) → exchangeArg s v = Except.ok v) ∧
  (∀ s vs vs2, exchangeArgs s vs = Except.ok vs2 →
     List.Forall₂ (fun v v2 => exchangeArg s v = Except.ok v2) vs vs2) ∧
  (∀ s kvs kvs2, exchangeKwargs s kvs = Except.ok kvs2 →
     List.Forall₂ (fun kv kv2 =>
       kv2.1 = kv.1 ∧ exchangeArg s kv.2 = Except.ok kv2.2) kvs kvs2)

/-- The loop-termination properties claimed for Listener.listen: an
empty stream exits cleanly at once; the loop exits with code zero
exactly when the whole stream is consumed down to end-of-stream; a
request whose handling raises produces a failure response and the loop
proceeds with the next request; and with all writes succeeding there is
exactly one response per request. -/
def ListenClaim (exec : Invocation → PyResult) (L : ListenerState)
    (reqs : List (WireRequest × Bool)) : Prop :=
  (ListenerState.listen exec L [] = ([], ExitStatus.cleanExit, L)) ∧
  ((ListenerState.listen exec L reqs).2.1 = ExitStatus.cleanExit ↔
     ∀ p ∈ reqs, p.2 = true) ∧
  (∀ req rest e,
     (ListenerState.runRequest exec L req).2.1 = PyResult.exc e →
     ListenerState.listen exec L ((req, true) :: rest) =
       (Response.failure (formatExc e) e ::
          (ListenerState.listen exec
            (ListenerState.runRequest exec L req).1 rest).1,
        (ListenerState.listen exec
          (ListenerState.runRequest exec L req).1 rest).2)) ∧
  ((∀ p ∈ reqs, p.2 = true) →
     (ListenerState.listen exec L reqs).1.length = reqs.length)

/-- The amended routing properties of AccessHandle._workaround: the raw
uncached path is taken exactly when the first positional argument is a
slice; on that path the dispatcher is called directly and the cache is
untouched; on the cached path a repeated invocation with identical
(name, args, kwargs) returns the first call's result with zero further
dispatcher round trips. -/
def RouteClaim (dispatch : ProxyCall → Value) (c : MemoCache)
    (name : String) (args : List PyArg)
    (kwargs : List (String × PyArg)) : Prop :=
  (workaroundRoute args = Route.rawMethod ↔
     ∃ s e rest, args = PyArg.slice s e :: rest) ∧
  (workaroundRoute args = Route.rawMethod →
     workaround dispatch c name args kwargs =
       (dispatch { name := name, args := args, kwargs := kwargs }, c, 1)) ∧
  (workaroundRoute args = Route.cached →
     (workaround dispatch (workaround dispatch c name args kwargs).2.1
        name args kwargs).1 =
       (workaround dispatch c name args kwargs).1 ∧
     (workaround dispatch (workaround dispatch c name args kwargs).2.1
        name args kwargs).2.2 = 0)

/-- The serialization properties claimed for handles: __getstate__
captures exactly the id, __setstate__ restores a handle with that id and
no access or subprocess attribute, and pickling then unpickling a value
preserves its structure and handle ids while every unpickled handle is a
bare id-only handle. -/
def PickleClaim (h : AccessHandle) (v : Value) (t t' : Nat) : Prop :=
  (AccessHandle.getstate h = h.id) ∧
  ((AccessHandle.setstate (AccessHandle.getstate h) t').id = h.id ∧
   (AccessHandle.setstate (AccessHandle.getstate h) t').subprocess = none ∧
   (AccessHandle.setstate (AccessHandle.getstate h) t').hasAccess = false) ∧
  (shape (decodeValue (encodeValue v) t).1 = shape v) ∧
  (∀ h2, HandleIn h2 (decodeValue (encodeValue v) t).1 →
     h2.subprocess = none ∧ h2.hasAccess = false)

/-- The double-deletion properties claimed: deleting a context id with
no live session raises KeyError (the session dict is left unchanged),
the listener packages that KeyError as a failure response, the host
re-raises it, and deleting the same id twice in a row fails on the
second deletion. -/
def DoubleDeleteClaim (exec : Invocation → PyResult) (L : ListenerState)
    (i : Nat) (m : Manager) (req : WireRequest) (tb : String) : Prop :=
  (dictLookup L.inferStates i = none →
     ListenerState.runRequest exec L (deletionRequest i) =
       (L, PyResult.exc (keyError i), [])) ∧
  (responseOf (PyResult.exc (keyError i)) =
     Response.failure (formatExc (keyError i)) (keyError i)) ∧
  (m.isCrashed = false →
     (m.send req WriteOutcome.ok (ReadOutcome.failure tb (keyError i))).2.1 =
       SendResult.reraised { ty := "KeyError", tag := i, args := [tb] }) ∧
  (∀ s, dictLookup L.inferStates i = some s →
     (ListenerState.runRequest exec L (deletionRequest i)).2.1 =
       PyResult.ok Value.vnone ∧
     dictLookup (ListenerState.runRequest exec L
       (deletionRequest i)).1.inferStates i = none ∧
     (ListenerState.runRequest exec
        (ListenerState.runRequest exec L (deletionRequest i)).1
        (deletionRequest i)).2.1 = PyResult.exc (keyError i))

end Jedi

namespace Jedi

theorem manager_eta_started (m : Manager) (h : m.processStarted = true) :
    { m with processStarted := true } = m := by
  cases m
  simp_all

theorem dictLookup_setAccessHandle_preserve (m : HandleMap) (h2 : AccessHandle)
    (hnew : dictLookup m h2.id = none) (i : Nat) (h0 : AccessHandle)
    (hold : dictLookup m i = some h0) :
    dictLookup (setAccessHandle m h2) i = some h0 := by
  have hne : h2.id ≠ i := by
    intro he
    rw [he] at hnew
    rw [hnew] at hold
    exact Option.noConfusion hold
  simp [setAccessHandle, dictLookup, hne]
  exact hold

theorem convert_spec (selfId : Nat) :
    (∀ (m : HandleMap) (v : Value), WfMap m →
       WfMap (convertAccessHandles selfId m v).2 ∧
       (∀ i h0, dictLookup m i = some h0 →
          dictLookup (convertAccessHandles selfId m v).2 i = some h0) ∧
       shape (convertAccessHandles selfId m v).1 = shape v ∧
       (∀ h, HandleIn h (convertAccessHandles selfId m v).1 →
          dictLookup (convertAccessHandles selfId m v).2 h.id = some h)) ∧
    (∀ (m : HandleMap) (vs : List Value), WfMap m →
       WfMap (convertHandleList selfId m vs).2 ∧
       (∀ i h0, dictLookup m i = some h0 →
          dictLookup (convertHandleList selfId m vs).2 i = some h0) ∧
       shapeList (convertHandleList selfId m vs).1 = shapeList vs ∧
       (∀ h v, v ∈ (convertHandleList selfId m vs).1 → HandleIn h v →
          dictLookup (convertHandleList selfId m vs).2 h.id = some h)) := by
  refine convertAccessHandles.mutual_induct selfId
    (fun m v => WfMap m →
       WfMap (convertAccessHandles selfId m v).2 ∧
       (∀ i h0, dictLookup m i = some h0 →
          dictLookup (convertAccessHandles selfId m v).2 i = some h0) ∧
       shape (convertAccessHandles selfId m v).1 = shape v ∧
       (∀ h, HandleIn h (convertAccessHandles selfId m v).1 →
          dictLookup (convertAccessHandles selfId m v).2 h.id = some h))
    (fun m vs => WfMap m →
       WfMap (convertHandleList selfId m vs).2 ∧
       (∀ i h0, dictLookup m i = some h0 →
          dictLookup (convertHandleList selfId m vs).2 i = some h0) ∧
       shapeList (convertHandleList selfId m vs).1 = shapeList vs ∧
       (∀ h v, v ∈ (convertHandleList selfId m vs).1 → HandleIn h v →
          dictLookup (convertHandleList selfId m vs).2 h.id = some h))
    ?_ ?_ ?_ ?_ ?_ ?_ ?_ ?_ ?_ ?_ ?_
  case _ =>
    -- sigParam
    intro m vs ih hwf
    obtain ⟨w1, w2, w3, w4⟩ := ih hwf
    refine ⟨w1, w2, ?_, ?_⟩
    · simp [convertAccessHandles, shape, w3]
    · intro h hin
      simp only [convertAccessHandles] at hin
      cases hin with
      | sigParam hmem hv => exact w4 h _ hmem hv
  case _ =>
    -- tup
    intro m vs ih hwf
    obtain ⟨w1, w2, w3, w4⟩ := ih hwf
    refine ⟨w1, w2, ?_, ?_⟩
    · simp [convertAccessHandles, shape, w3]
    · intro h hin
      simp only [convertAccessHandles] at hin
      cases hin with
      | tup hmem hv => exact w4 h _ hmem hv
  case _ =>
    -- lst
    intro m vs ih hwf
    obtain ⟨w1, w2, w3, w4⟩ := ih hwf
    refine ⟨w1, w2, ?_, ?_⟩
    · simp [convertAccessHandles, shape, w3]
    · intro h hin
      simp only [convertAccessHandles] at hin
      cases hin with
      | lst hmem hv => exact w4 h _ hmem hv
  case _ =>
    -- handle, already registered
    intro m h h0 hfound hwf
    have hid : h0.id = h.id := hwf h.id h0 hfound
    simp only [convertAccessHandles, hfound]
    refine ⟨hwf, fun i hh hx => hx, ?_, ?_⟩
    · simp [shape, hid]
    · intro h1 hin
      cases hin with
      | here =>
          rw [hid]
          exact hfound
  case _ =>
    -- handle, first sight: register the incoming handle
    intro m h hnone hwf
    simp only [convertAccessHandles, hnone]
    constructor
    · intro i h1 hl
      simp only [setAccessHandle, dictLookup] at hl
      split at hl
      next heq =>
        cases hl
        exact heq
      next hne =>
        exact hwf i h1 hl
    constructor
    · intro i h0 hold
      exact dictLookup_setAccessHandle_preserve m
        { h with subprocess := some selfId } hnone i h0 hold
    constructor
    · simp [shape]
    · intro h1 hin
      cases hin with
      | here =>
          simp [setAccessHandle, dictLookup]
  case _ =>
    -- accessPath
    intro m vs ih hwf
    obtain ⟨w1, w2, w3, w4⟩ := ih hwf
    refine ⟨w1, w2, ?_, ?_⟩
    · simp [convertAccessHandles, shape, w3]
    · intro h hin
      simp only [convertAccessHandles] at hin
      cases hin with
      | accessPath hmem hv => exact w4 h _ hmem hv
  case _ =>
    -- vnone
    intro m hwf
    refine ⟨hwf, fun i h0 hx => hx, rfl, ?_⟩
    intro h hin
    cases hin
  case _ =>
    -- int
    intro m n hwf
    refine ⟨hwf, fun i h0 hx => hx, rfl, ?_⟩
    intro h hin
    cases hin
  case _ =>
    -- str
    intro m s hwf
    refine ⟨hwf, fun i h0 hx => hx, rfl, ?_⟩
    intro h hin
    cases hin
  case _ =>
    -- nil
    intro m hwf
    refine ⟨hwf, fun i h0 hx => hx, rfl, ?_⟩
    intro h v hmem
    cases hmem
  case _ =>
    -- cons
    intro m v vs r1 ih1 ih2 hwf
    obtain ⟨w1, w2, w3, w4⟩ := ih1 hwf
    obtain ⟨u1, u2, u3, u4⟩ := ih2 w1
    refine ⟨u1, ?_, ?_, ?_⟩
    · intro i h0 hold
      exact u2 i h0 (w2 i h0 hold)
    · simp only [convertHandleList, shapeList]
      rw [w3, u3]
    · intro h vx hmem hin
      simp only [convertHandleList, List.mem_cons] at hmem
      cases hmem with
      | inl he =>
          subst he
          exact u2 h.id h (w4 h hin)
      | inr hm =>
          exact u4 h vx hm hin

/-- C3: for every result value received by the host dispatcher,
_convert_access_handles rewrites every embedded AccessHandle to the
host's canonical handle instance for that id — registering and reusing
the incoming handle on first sight of an id and returning the previously
registered instance for later occurrences of the same id — while
preserving the structural type and element order of tuples, lists,
SignatureParam records and AccessPath containers; two results referring
to the same remote id yield the identical host-side handle instance and
distinct ids yield distinct handles. -/
theorem C3_convert_access_handles_canonical (selfId : Nat) (m : HandleMap)
    (v v2 : Value) (hwf : WfMap m) : ConvertClaim selfId m v v2 := by
  obtain ⟨F, _⟩ := convert_spec selfId
  obtain ⟨w1, w2, w3, w4⟩ := F m v hwf
  obtain ⟨u1, u2, u3, u4⟩ := F (convertAccessHandles selfId m v).2 v2 w1
  refine ⟨w3, w4, ?_, ?_, ?_⟩
  · intro i h0 hold h hin hid
    have hpres := w2 i h0 hold
    have h1 : dictLookup (convertAccessHandles selfId m v).2 i = some h := by
      rw [← hid]
      exact w4 h hin
    rw [h1] at hpres
    exact Option.some.inj hpres
  · intro h hnone
    simp [convertAccessHandles, hnone]
  · intro h h' hin hin'
    constructor
    · intro hid
      have c1 := u2 h.id h (w4 h hin)
      have c2 := u4 h' hin'
      rw [hid] at c1
      rw [c2] at c1
      exact (Option.some.inj c1).symm
    · intro he
      rw [he]

/-- Witness for C3 at a concrete input: an empty wellformed registry, a
result containing two handle occurrences with id 5 (distinct incoming
instances) and one with id 7, and a second result containing id 5 again. -/
theorem C3_witness :
    ConvertClaim 0 []
      (Value.tup [Value.handle { id := 5, tag := 100, subprocess := none, hasAccess := true },
                  Value.lst [Value.handle { id := 5, tag := 101, subprocess := none, hasAccess := true }],
                  Value.handle { id := 7, tag := 200, subprocess := none, hasAccess := true }])
      (Value.sigParam [Value.handle { id := 5, tag := 102, subprocess := none, hasAccess := true }]) :=
  C3_convert_access_handles_canonical 0 [] _ _ (fun _ _ hc => Option.noConfusion hc)

/-- C1: once the manager observes a broken channel (broken pipe on write
or EOF on read) it transitions to the permanent crashed state and raises
InternalError; thereafter every _send raises InternalError immediately
with nothing written to the channel and no worker respawn, run does the
same, and no operation ever clears the crash flag. -/
theorem C1_crashed_is_permanent (m : Manager) (req : WireRequest)
    (r : ReadOutcome) : CrashClaim m req r := by
  refine ⟨?_, ?_, ?_, ?_, ?_, ?_⟩
  · intro hnc
    constructor
    · simp [Manager.send, hnc]
    · simp [Manager.send, hnc]
  · intro hnc
    constructor
    · simp [Manager.send, hnc]
    · simp [Manager.send, hnc]
  · intro w r2 hc
    simp [Manager.send, hc]
  · intro w r2 hc
    simp [Manager.send, hc]
  · intro i f args kwargs oracle hc
    cases hq : m.deletionQueue with
    | nil =>
        refine ⟨?_, ?_, ?_⟩ <;>
          simp [Manager.run, Manager.runDrain, Manager.send, hq, hc]
    | cons j rest =>
        refine ⟨?_, ?_, ?_⟩ <;>
          simp [Manager.run, Manager.runDrain, Manager.send, hq, hc]
  · intro i
    exact ⟨rfl, rfl⟩

/-- Witness for C1 at a concrete manager and request. -/
theorem C1_witness :
    CrashClaim
      { executable := "python3", isCrashed := false,
        deletionQueue := [4], processStarted := true }
      (deletionRequest 9) (ReadOutcome.success Value.vnone) :=
  C1_crashed_is_permanent _ _ _

/-- C2: a worker-side handler exception is caught and shipped back as a
failure response carrying the formatted trace and the exception object
itself; the host re-raises that same object (same type and identity)
with its message replaced by the trace text, the manager does not enter
the crashed state, and a subsequent call on the same manager still goes
through the channel. -/
theorem C2_remote_exception_recoverable (m : Manager)
    (req req2 : WireRequest) (tb : String) (e : PyExc) (v : Value) :
    RemoteExcClaim m req req2 tb e v := by
  constructor
  · intro exec L r hexc
    rw [hexc]
    rfl
  · intro hnc
    refine ⟨?_, ?_, ?_⟩
    · simp [Manager.send, hnc]
    · simp [Manager.send, hnc]
    · simp [Manager.send, hnc]

/-- Witness for C2 at a concrete manager, exception and follow-up call. -/
theorem C2_witness :
    RemoteExcClaim
      { executable := "python3", isCrashed := false,
        deletionQueue := [], processStarted := true }
      (deletionRequest 1) (deletionRequest 2)
      "Traceback: ValueError: boom"
      { ty := "ValueError", tag := 77, args := ["boom"] }
      (Value.int 3) :=
  C2_remote_exception_recoverable _ _ _ _ _ _

theorem runDrain_ok (v : Value) :
    ∀ (q : List Nat) (k : Nat) (m : Manager),
      m.isCrashed = false → m.processStarted = true →
      Manager.runDrain (okOracle v) q k m =
        ((match q with
          | [] => m
          | _ :: _ => { m with deletionQueue := [] }), none,
         q.map (fun j => ChannelEvent.write (deletionRequest j))) := by
  intro q
  induction q with
  | nil =>
      intro k m _ _
      rfl
  | cons j rest ih =>
      intro k m hnc hst
      have hsend :
          Manager.send { m with deletionQueue := rest }
            { inferStateId := some j, function := none,
              args := [], kwargs := [] }
            (okOracle v k).1 (okOracle v k).2 =
          ({ m with deletionQueue := rest }, SendResult.ok v,
           [ChannelEvent.write (deletionRequest j)]) := by
        simp [Manager.send, okOracle, hnc, hst, deletionRequest]
      have hrec := ih (k + 1) { m with deletionQueue := rest } hnc hst
      simp only [Manager.runDrain, hsend]
      rw [hrec]
      cases rest <;> simp [deletionRequest]
  -- the final manager is the input with its queue fully drained

/-- C6: delete_infer_state never writes at call time — it only appends
the id to the pending-deletion queue; the queue is drained at the start
of the next run, one deletion request per queued id written before the
real request, and afterwards the queue is empty. -/
theorem C6_deferred_deletion (m : Manager) (i realId : Nat) (f : FuncId)
    (args : List Value) (kwargs : List (String × Value)) (v : Value) :
    DeferredDeletionClaim m i realId f args kwargs v := by
  constructor
  · rfl
  · intro hnc hst
    have hd := runDrain_ok v m.deletionQueue 0 { m with deletionQueue := [] }
      (by simpa using hnc) (by simpa using hst)
    have hsend : ∀ k,
        Manager.send { m with deletionQueue := [] }
          { inferStateId := some realId, function := some f,
            args := args, kwargs := kwargs }
          (okOracle v k).1 (okOracle v k).2 =
        ({ m with deletionQueue := [] }, SendResult.ok v,
         [ChannelEvent.write
           { inferStateId := some realId, function := some f,
             args := args, kwargs := kwargs }]) := by
      intro k
      simp [Manager.send, okOracle, hnc, hst]
    cases hq : m.deletionQueue with
    | nil =>
        rw [hq] at hd
        constructor
        · simp only [Manager.run, hq, hd, hsend]
        · simp only [Manager.run, hq, hd, hsend]
    | cons j rest =>
        rw [hq] at hd
        simp only [Manager.run, hq, hd]
        constructor
        · simp only [hsend]
        · simp only [hsend]

/-- Witness for C6 at a concrete manager with two queued deletions. -/
theorem C6_witness :
    DeferredDeletionClaim
      { executable := "python3", isCrashed := false,
        deletionQueue := [8, 7], processStarted := true }
      7 9 "get_compiled_method_return" [Value.int 1] [] Value.vnone :=
  C6_deferred_deletion _ _ _ _ _ _ _

theorem dictLookup_dictDelete {α : Type} (m : List (Nat × α)) (i : Nat) :
    dictLookup (dictDelete m i) i = none := by
  induction m with
  | nil => rfl
  | cons p rest ih =>
      by_cases hp : p.1 = i
      · simpa [dictDelete, List.filter_cons, hp] using ih
      · simpa [dictDelete, List.filter_cons, hp, dictLookup] using ih

/-- C5: Listener._run invokes the function directly when the context id
is none; deletes the session (invoking nothing) when the function is
none; and otherwise gets-or-creates the session, replaces every
positional and keyword AccessHandle argument by the registry entry for
its id, and invokes the function with the session object prepended. -/
theorem C5_run_dispatch (exec : Invocation → PyResult) (L : ListenerState)
    (i : Nat) (f : FuncId) (args : List Value)
    (kwargs : List (String × Value)) :
    RunRequestClaim exec L i f args kwargs := by
  refine ⟨?_, ?_, ?_, ?_, ?_, ?_, ?_⟩
  · rfl
  · intro s hs
    simp [ListenerState.runRequest, hs]
  · intro args2 kwargs2 ha hk
    simp [ListenerState.runRequest, ha, hk]
  · intro s h h2 hh
    simp [exchangeArg, hh]
  · intro s v hnh
    cases v with
    | handle h => exact absurd rfl (hnh h)
    | vnone => rfl
    | int n => rfl
    | str s2 => rfl
    | tup vs => rfl
    | lst vs => rfl
    | sigParam vs => rfl
    | accessPath vs => rfl
  · intro s vs
    induction vs with
    | nil =>
        intro vs2 hok
        simp only [exchangeArgs] at hok
        cases hok
        exact List.Forall₂.nil
    | cons v vs ih =>
        intro vs2 hok
        simp only [exchangeArgs] at hok
        cases hxa : exchangeArg s v with
        | error e =>
            rw [hxa] at hok
            exact Except.noConfusion hok
        | ok v2 =>
            rw [hxa] at hok
            cases hxs : exchangeArgs s vs with
            | error e =>
                rw [hxs] at hok
                exact Except.noConfusion hok
            | ok vs3 =>
                rw [hxs] at hok
                cases hok
                exact List.Forall₂.cons hxa (ih vs3 hxs)
  · intro s kvs
    induction kvs with
    | nil =>
        intro kvs2 hok
        simp only [exchangeKwargs] at hok
        cases hok
        exact List.Forall₂.nil
    | cons kv kvs ih =>
        intro kvs2 hok
        simp only [exchangeKwargs] at hok
        cases hxa : exchangeArg s kv.2 with
        | error e =>
            rw [hxa] at hok
            exact Except.noConfusion hok
        | ok v2 =>
            rw [hxa] at hok
            cases hxs : exchangeKwargs s kvs with
            | error e =>
                rw [hxs] at hok
                exact Except.noConfusion hok
            | ok kvs3 =>
                rw [hxs] at hok
                cases hok
                exact List.Forall₂.cons ⟨rfl, hxa⟩ (ih kvs3 hxs)

/-- Witness for C5 at a concrete listener holding one session with one
registered handle. -/
theorem C5_witness :
    RunRequestClaim (fun _ => PyResult.ok Value.vnone)
      { inferStates :=
          [(3, { tag := 0,
                 handles := [(5, { id := 5, tag := 50, subprocess := none,
                                   hasAccess := true })] })],
        nextTag := 1 }
      3 "get_compiled_method_return"
      [Value.handle { id := 5, tag := 60, subprocess := some 0, hasAccess := false }]
      [] :=
  C5_run_dispatch _ _ _ _ _ _

/-- C10: a deletion request for a context id with no live session raises
KeyError in the listener (the session dict is unchanged), which the
listener packages as a failure response and the host re-raises; deleting
the same id twice in a row therefore fails on the second deletion. -/
theorem C10_double_delete_raises (exec : Invocation → PyResult)
    (L : ListenerState) (i : Nat) (m : Manager) (req : WireRequest)
    (tb : String) : DoubleDeleteClaim exec L i m req tb := by
  refine ⟨?_, ?_, ?_, ?_⟩
  · intro hn
    simp [ListenerState.runRequest, deletionRequest, hn]
  · rfl
  · intro hnc
    simp [Manager.send, hnc, keyError]
  · intro s hs
    refine ⟨?_, ?_, ?_⟩
    · simp [ListenerState.runRequest, deletionRequest, hs]
    · simp [ListenerState.runRequest, deletionRequest, hs,
        dictLookup_dictDelete]
    · simp [ListenerState.runRequest, deletionRequest, hs,
        dictLookup_dictDelete]

/-- Witness for C10 at a concrete listener holding exactly one session. -/
theorem C10_witness :
    DoubleDeleteClaim (fun _ => PyResult.ok Value.vnone)
      { inferStates := [(7, { tag := 0, handles := [] })], nextTag := 1 }
      7
      { executable := "python3", isCrashed := false,
        deletionQueue := [], processStarted := true }
      (deletionRequest 7) "Traceback: KeyError: 7" :=
  C10_double_delete_raises _ _ _ _ _ _

theorem runRequest_existing_session (exec : Invocation → PyResult)
    (cid : Nat) (s0 : Session) (L : ListenerState) (r : WireRequest)
    (hl : dictLookup L.inferStates cid = some s0)
    (hid : r.inferStateId = some cid) (f : FuncId)
    (hf : r.function = some f) :
    (ListenerState.runRequest exec L r).1 = L ∧
    (∀ inv ∈ (ListenerState.runRequest exec L r).2.2,
       ∃ f2 a k, inv = Invocation.withState f2 s0.tag a k) := by
  have hg : L.getInferState f cid = (s0, L) := by
    simp [ListenerState.getInferState, hl]
  simp only [ListenerState.runRequest, hid, hf, hg]
  cases hxa : exchangeArgs s0 r.args with
  | error e =>
      refine ⟨rfl, ?_⟩
      intro inv hi
      cases hi
  | ok args2 =>
      cases hxk : exchangeKwargs s0 r.kwargs with
      | error e =>
          refine ⟨rfl, ?_⟩
          intro inv hi
          cases hi
      | ok kwargs2 =>
          refine ⟨rfl, ?_⟩
          intro inv hi
          simp only [List.mem_singleton] at hi
          exact ⟨f, args2, kwargs2, hi⟩

theorem runAll_existing_session (exec : Invocation → PyResult)
    (cid : Nat) (s0 : Session) :
    ∀ (reqs : List WireRequest) (L : ListenerState),
      dictLookup L.inferStates cid = some s0 →
      (∀ req ∈ reqs, req.inferStateId = some cid ∧
         ∃ f, req.function = some f) →
      (ListenerState.runAll exec L reqs).1 = L ∧
      (∀ inv ∈ (ListenerState.runAll exec L reqs).2,
         ∃ f2 a k, inv = Invocation.withState f2 s0.tag a k) := by
  intro reqs
  induction reqs with
  | nil =>
      intro L _ _
      refine ⟨rfl, ?_⟩
      intro inv hi
      cases hi
  | cons r rs ih =>
      intro L hl hall
      obtain ⟨hid, f, hf⟩ := hall r (List.mem_cons_self r rs)
      obtain ⟨hs1, hs2⟩ := runRequest_existing_session exec cid s0 L r hl hid f hf
      have hrec := ih (ListenerState.runRequest exec L r).1
        (by rw [hs1]; exact hl)
        (fun req hr => hall req (List.mem_cons_of_mem r hr))
      simp only [ListenerState.runAll]
      constructor
      · rw [hrec.1, hs1]
      · intro inv hi
        simp only [List.mem_append] at hi
        cases hi with
        | inl h1 => exact hs2 inv h1
        | inr h2 => exact hrec.2 inv h2

/-- C4: any nonempty sequence of requests naming one context id with a
non-none function, run against a fresh worker, creates exactly one
worker-side session: the first request creates and stores it, every
later request operates on that same session object, and the fresh-tag
supply advances exactly once. -/
theorem C4_one_session_per_id (exec : Invocation → PyResult) (cid : Nat)
    (reqs : List WireRequest) (hne : reqs ≠ [])
    (hall : ∀ req ∈ reqs, req.inferStateId = some cid ∧
       ∃ f, req.function = some f) :
    SessionUniqueClaim exec cid reqs := by
  obtain ⟨r0, rest, rfl⟩ := List.exists_cons_of_ne_nil hne
  obtain ⟨hid0, f0, hf0⟩ := hall r0 (List.mem_cons_self r0 rest)
  have hg : freshListener.getInferState f0 cid =
      ({ tag := 0, handles := [] },
       { inferStates := [(cid, { tag := 0, handles := [] })],
         nextTag := 1 }) := by
    simp [ListenerState.getInferState, freshListener, dictLookup]
  have hl1 : dictLookup
      (ListenerState.inferStates
        { inferStates := [(cid, { tag := 0, handles := [] })],
          nextTag := 1 }) cid = some { tag := 0, handles := [] } := by
    simp [dictLookup]
  have hstep : (ListenerState.runRequest exec freshListener r0).1 =
      { inferStates := [(cid, { tag := 0, handles := [] })],
        nextTag := 1 } ∧
      (∀ inv ∈ (ListenerState.runRequest exec freshListener r0).2.2,
         ∃ f2 a k, inv = Invocation.withState f2 0 a k) := by
    simp only [ListenerState.runRequest, hid0, hf0, hg]
    cases hxa : exchangeArgs { tag := 0, handles := [] } r0.args with
    | error e =>
        refine ⟨rfl, ?_⟩
        intro inv hi
        cases hi
    | ok args2 =>
        cases hxk : exchangeKwargs { tag := 0, handles := [] } r0.kwargs with
        | error e =>
            refine ⟨rfl, ?_⟩
            intro inv hi
            cases hi
        | ok kwargs2 =>
            refine ⟨rfl, ?_⟩
            intro inv hi
            simp only [List.mem_singleton] at hi
            exact ⟨f0, args2, kwargs2, hi⟩
  have hrest := runAll_existing_session exec cid { tag := 0, handles := [] }
    rest (ListenerState.runRequest exec freshListener r0).1
    (by rw [hstep.1]; exact hl1)
    (fun req hr => hall req (List.mem_cons_of_mem r0 hr))
  refine ⟨?_, ?_, ?_⟩
  · simp only [ListenerState.runAll]
    rw [hrest.1, hstep.1]
  · simp only [ListenerState.runAll]
    rw [hrest.1, hstep.1]
    exact hl1
  · simp only [ListenerState.runAll]
    intro inv hi
    simp only [List.mem_append] at hi
    cases hi with
    | inl h1 => exact hstep.2 inv h1
    | inr h2 => exact hrest.2 inv h2

/-- Witness for C4: two requests naming context id 3 with functions,
against a fresh worker. -/
theorem C4_witness :
    SessionUniqueClaim (fun _ => PyResult.ok Value.vnone) 3
      [{ inferStateId := some 3, function := some "load_module",
         args := [], kwargs := [] },
       { inferStateId := some 3, function := some "get_compiled_method_return",
         args := [Value.int 1], kwargs := [] }] := by
  refine C4_one_session_per_id _ 3 _ (by simp) ?_
  intro req hr
  simp only [List.mem_cons, List.not_mem_nil, or_false] at hr
  cases hr with
  | inl h1 =>
      subst h1
      exact ⟨rfl, "load_module", rfl⟩
  | inr h2 =>
      subst h2
      exact ⟨rfl, "get_compiled_method_return", rfl⟩

theorem listen_clean_iff (exec : Invocation → PyResult) :
    ∀ (reqs : List (WireRequest × Bool)) (L : ListenerState),
      ((ListenerState.listen exec L reqs).2.1 = ExitStatus.cleanExit ↔
        ∀ p ∈ reqs, p.2 = true) := by
  intro reqs
  induction reqs with
  | nil =>
      intro L
      simp [ListenerState.listen]
  | cons p rest ih =>
      intro L
      obtain ⟨req, w⟩ := p
      cases w with
      | false =>
          simp [ListenerState.listen]
      | true =>
          simp only [ListenerState.listen, if_pos]
          rw [ih]
          simp
  -- a failed response write exits abnormally; successful writes recurse

theorem listen_length (exec : Invocation → PyResult) :
    ∀ (reqs : List (WireRequest × Bool)) (L : ListenerState),
      (∀ p ∈ reqs, p.2 = true) →
      (ListenerState.listen exec L reqs).1.length = reqs.length := by
  intro reqs
  induction reqs with
  | nil =>
      intro L _
      rfl
  | cons p rest ih =>
      intro L hall
      obtain ⟨req, w⟩ := p
      have hw : w = true := hall (req, w) (List.mem_cons_self _ _)
      subst hw
      simp only [ListenerState.listen, if_pos]
      simp only [List.length_cons]
      rw [ih _ (fun q hq => hall q (List.mem_cons_of_mem _ hq))]

/-- C8: the worker listener loop exits with code zero exactly when
reading the next request hits end-of-stream, and never because handling
a request raised: every raising request yields a failure response and
the loop proceeds, producing one response per request as long as writes
succeed. -/
theorem C8_listen_survives_handler_errors (exec : Invocation → PyResult)
    (L : ListenerState) (reqs : List (WireRequest × Bool)) :
    ListenClaim exec L reqs := by
  refine ⟨rfl, listen_clean_iff exec reqs L, ?_, listen_length exec reqs L⟩
  intro req rest e hexc
  simp only [ListenerState.listen, if_pos, hexc, responseOf]

/-- Witness for C8: a fresh listener fed one deletion request (whose
handling raises KeyError) with a succeeding response write. -/
theorem C8_witness :
    ListenClaim (fun _ => PyResult.ok Value.vnone) freshListener
      [(deletionRequest 4, true)] :=
  C8_listen_survives_handler_errors _ _ _

/-- Counterexample to C7 as stated: the argument list
[other 0, slice 0 1] contains a slice, yet _workaround routes it through
the memoized cache (only the FIRST positional argument is tested for
slice-ness), observable both in the route and in the cache insertion the
call performs. -/
theorem C7_counterexample :
    workaroundRoute [PyArg.other 0, PyArg.slice 0 1] = Route.cached ∧
    PyArg.slice 0 1 ∈ [PyArg.other 0, PyArg.slice 0 1] ∧
    Route.cached ≠ Route.rawMethod ∧
    workaround (fun _ => Value.vnone) [] "py__getitem__"
        [PyArg.other 0, PyArg.slice 0 1] [] =
      (Value.vnone,
       [({ name := "py__getitem__",
           args := [PyArg.other 0, PyArg.slice 0 1], kwargs := [] },
         Value.vnone)], 1) := by
  refine ⟨rfl, ?_, ?_, rfl⟩
  · decide
  · decide

/-- C7 (amended): _workaround routes through the raw uncached
subprocess-method path exactly when the FIRST positional argument is a
slice; every other call goes through the cache memoized on
(operation name, args, kwargs), so a repeated identical invocation is
served from cache with no further dispatcher round trip. -/
theorem C7_first_arg_slice_routing (dispatch : ProxyCall → Value)
    (c : MemoCache) (name : String) (args : List PyArg)
    (kwargs : List (String × PyArg)) :
    RouteClaim dispatch c name args kwargs := by
  refine ⟨?_, ?_, ?_⟩
  · constructor
    · intro hr
      cases args with
      | nil => exact Route.noConfusion hr
      | cons a rest =>
          cases a with
          | slice s e => exact ⟨s, e, rest, rfl⟩
          | other n => exact Route.noConfusion hr
    · rintro ⟨s, e, rest, rfl⟩
      rfl
  · intro hr
    unfold workaround
    rw [hr]
  · intro hr
    unfold workaround
    rw [hr]
    unfold cachedResults
    cases hml : memoLookup c
        { name := name, args := args, kwargs := kwargs } with
    | some v =>
        simp [hml]
    | none =>
        simp [hml, memoLookup]

/-- Witness for C7 at a concrete dispatcher, name and arguments. -/
theorem C7_witness :
    RouteClaim (fun _ => Value.int 42) [] "get_api_type"
      [PyArg.other 5] [] :=
  C7_first_arg_slice_routing _ _ _ _ _

theorem pickle_spec :
    (∀ (v : Value) (t : Nat),
       shape (decodeValue (encodeValue v) t).1 = shape v ∧
       (∀ h2, HandleIn h2 (decodeValue (encodeValue v) t).1 →
          h2.subprocess = none ∧ h2.hasAccess = false)) ∧
    (∀ (vs : List Value) (t : Nat),
       shapeList (decodeList (encodeList vs) t).1 = shapeList vs ∧
       (∀ h2 v2, v2 ∈ (decodeList (encodeList vs) t).1 → HandleIn h2 v2 →
          h2.subprocess = none ∧ h2.hasAccess = false)) := by
  refine encodeValue.mutual_induct
    (fun v => ∀ t : Nat,
       shape (decodeValue (encodeValue v) t).1 = shape v ∧
       (∀ h2, HandleIn h2 (decodeValue (encodeValue v) t).1 →
          h2.subprocess = none ∧ h2.hasAccess = false))
    (fun vs => ∀ t : Nat,
       shapeList (decodeList (encodeList vs) t).1 = shapeList vs ∧
       (∀ h2 v2, v2 ∈ (decodeList (encodeList vs) t).1 → HandleIn h2 v2 →
          h2.subprocess = none ∧ h2.hasAccess = false))
    ?_ ?_ ?_ ?_ ?_ ?_ ?_ ?_ ?_ ?_
  case _ =>
    -- vnone
    intro t
    refine ⟨rfl, ?_⟩
    intro h2 hin
    cases hin
  case _ =>
    -- int
    intro n t
    refine ⟨rfl, ?_⟩
    intro h2 hin
    cases hin
  case _ =>
    -- str
    intro s t
    refine ⟨rfl, ?_⟩
    intro h2 hin
    cases hin
  case _ =>
    -- handle
    intro h t
    constructor
    · simp [encodeValue, decodeValue, shape, AccessHandle.setstate,
        AccessHandle.getstate]
    · intro h2 hin
      simp only [encodeValue, decodeValue] at hin
      cases hin with
      | here => exact ⟨rfl, rfl⟩
  case _ =>
    -- tup
    intro vs ih t
    obtain ⟨w1, w2⟩ := ih t
    constructor
    · simp [encodeValue, decodeValue, shape, w1]
    · intro h2 hin
      simp only [encodeValue, decodeValue] at hin
      cases hin with
      | tup hmem hv => exact w2 h2 _ hmem hv
  case _ =>
    -- lst
    intro vs ih t
    obtain ⟨w1, w2⟩ := ih t
    constructor
    · simp [encodeValue, decodeValue, shape, w1]
    · intro h2 hin
      simp only [encodeValue, decodeValue] at hin
      cases hin with
      | lst hmem hv => exact w2 h2 _ hmem hv
  case _ =>
    -- sigParam
    intro vs ih t
    obtain ⟨w1, w2⟩ := ih t
    constructor
    · simp [encodeValue, decodeValue, shape, w1]
    · intro h2 hin
      simp only [encodeValue, decodeValue] at hin
      cases hin with
      | sigParam hmem hv => exact w2 h2 _ hmem hv
  case _ =>
    -- accessPath
    intro vs ih t
    obtain ⟨w1, w2⟩ := ih t
    constructor
    · simp [encodeValue, decodeValue, shape, w1]
    · intro h2 hin
      simp only [encodeValue, decodeValue] at hin
      cases hin with
      | accessPath hmem hv => exact w2 h2 _ hmem hv
  case _ =>
    -- nil
    intro t
    refine ⟨rfl, ?_⟩
    intro h2 v2 hmem
    cases hmem
  case _ =>
    -- cons
    intro v vs ih1 ih2 t
    obtain ⟨w1, w2⟩ := ih1 t
    obtain ⟨u1, u2⟩ := ih2 (decodeValue (encodeValue v) t).2
    constructor
    · simp only [encodeList, decodeList, shapeList]
      rw [w1, u1]
    · intro h2 v2 hmem hin
      simp only [encodeList, decodeList, List.mem_cons] at hmem
      cases hmem with
      | inl he =>
          subst he
          exact w2 h2 hin
      | inr hm =>
          exact u2 h2 v2 hm hin

/-- C9: a handle's only serializable state is its numeric id —
__getstate__ captures exactly the id and __setstate__ restores a handle
with that id whose access wrapper and subprocess reference are absent —
and pickling then unpickling any supported value preserves its structure
and handle ids (round trip up to handle-id identity). -/
theorem C9_handle_serializes_id_only (h : AccessHandle) (v : Value)
    (t t' : Nat) : PickleClaim h v t t' := by
  obtain ⟨F, _⟩ := pickle_spec
  obtain ⟨s1, s2⟩ := F v t
  exact ⟨rfl, ⟨rfl, rfl, rfl⟩, s1, s2⟩

/-- Witness for C9 at a concrete handle and a container value holding
handles with duplicate ids. -/
theorem C9_witness :
    PickleClaim { id := 5, tag := 9, subprocess := some 1, hasAccess := true }
      (Value.accessPath
        [Value.tup [Value.handle { id := 5, tag := 9, subprocess := some 1,
                                   hasAccess := true },
                    Value.str "name"],
         Value.tup [Value.handle { id := 6, tag := 10, subprocess := some 1,
                                   hasAccess := true },
                    Value.str "attr"]])
      0 3 :=
  C9_handle_serializes_id_only _ _ _ _

end Jedi
